import Mathlib

/-
Verification of the batching/streaming orchestration layer of
src/hypergrep/lib/c/hyperscanner.c against its natural-language
specification.

The shallow embedding below models:
  * the result record built by hs_callback (struct hyperscanner_result);
  * the Matcher collaborator: one hs_scan call on a byte span reports a
    list of pattern ids (callback order) plus a success flag;
  * the LineSource collaborator: gzgets reading from a byte stream into a
    reused buffer of size buffer_size (up to a newline inclusive, or
    buffer_size - 1 bytes), terminating the read content with one 0 byte
    and leaving the rest of the buffer untouched;
  * the leading-NUL strip and the strlen bound of hyperscan_gz;
  * the result-ring fill/flush logic of hs_callback and hyperscan;
  * the allocation / goto-cleanup structure of hyperscan;
  * the multi-file loop of main.

Machine-integer behaviour that matters is made explicit: the int/unsigned
wrap of max_result_index when buffer_count == 0, the out-of-bounds ring
slot write it causes, the out-of-bounds stack-array writes in main, and
the skipped initializer of results_allocated reached by goto.  Undefined
behaviour is represented by an Option none outcome; bounds-checked
accesses produce none exactly where the C program leaves the defined
fragment of the language.
-/

namespace Hyperscanner

/-- Return codes of the hyperscanner (enum hyperscanner_ret). -/
def HYPERSCANNER_COMPILE_MEM : Nat := 1

/-- Return code for a pattern compilation failure. -/
def HYPERSCANNER_COMPILE : Nat := 2

/-- Return code for a scratch allocation failure. -/
def HYPERSCANNER_SCRATCH : Nat := 3

/-- Return code for a database initialization failure. -/
def HYPERSCANNER_DB : Nat := 4

/-- Return code for a state allocation failure. -/
def HYPERSCANNER_STATE_MEM : Nat := 5

/-- Return code for a gzopen failure. -/
def HYPERSCANNER_GZ_OPEN : Nat := 6

/-- Return code for an hs_scan failure. -/
def HYPERSCANNER_SCAN : Nat := 7

/-- One buffered match as written by hs_callback into a ring slot
(struct hyperscanner_result): the pattern id, the line number current at
the time of the callback, and the strcpy copy of state->line. -/
structure Rec where
  id : Nat
  line_number : Nat
  line : List Nat
deriving DecidableEq

/-- The Matcher collaborator.  One hs_scan call on a byte span invokes the
match callback once per occurrence, in left-to-right order, and then
reports success or failure of the scan call itself: we model it as a
function from the scanned span to the list of pattern ids passed to the
callback (in callback order) together with the success flag. -/
def Matcher : Type := List Nat → List Nat × Bool

/-- Index of the first newline byte in a list, if any. -/
def newlineIdx : List Nat → Option Nat
  | [] => none
  | b :: t => if b = 10 then some 0 else (newlineIdx t).map (· + 1)

/-- Number of bytes gzgets reads from the stream s into a buffer of size
bsz: up to the first newline inclusive, but at most bsz - 1 bytes. -/
def readLen (bsz : Nat) (s : List Nat) : Nat :=
  match newlineIdx s with
  | some i => min (i + 1) (bsz - 1)
  | none => min s.length (bsz - 1)

/-- Effect of one gzgets call on the reused line buffer: the content read
is placed at the start, followed by one terminating 0 byte; all bytes of
the buffer beyond the terminator keep their previous (residual) values. -/
def writeBuf (buf content : List Nat) : List Nat :=
  content ++ [0] ++ buf.drop (content.length + 1)

/-- Index of the first nonzero byte in a list, if any. -/
def firstNonzero : List Nat → Option Nat
  | [] => none
  | b :: t => if b ≠ 0 then some 0 else (firstNonzero t).map (· + 1)

/-- Start offset of state->line inside the buffer after the leading-NUL
strip of hyperscan_gz: if buf[0] == 0, the first nonzero byte anywhere in
the buffer becomes the start; if the whole buffer is zero, or buf[0] is
nonzero, the start stays at 0. -/
def stripStart (buf : List Nat) : Nat :=
  match buf with
  | [] => 0
  | b :: t =>
    if b = 0 then
      match firstNonzero t with
      | some i => i + 1
      | none => 0
    else 0

/-- The byte span handed to hs_scan: state->line for strlen(state->line)
bytes, i.e. the bytes from the (possibly stripped) start up to the first
0 byte.  If no 0 byte remains at or after the start, strlen reads past
the end of the allocated buffer: undefined behaviour, modelled as none. -/
def scanSpan (buf : List Nat) : Option (List Nat) :=
  let rest := buf.drop (stripStart buf)
  if rest.any (fun b => b == 0) then some (rest.takeWhile (fun b => b != 0)) else none

/-- Records built for one scanned line: hs_callback is invoked once per
reported id and tags each record with the current state->line_number and a
copy of state->line (the scanned span). -/
def lineRecords (ids : List Nat) (ln : Nat) (span : List Nat) : List Rec :=
  ids.map (fun i => ⟨i, ln, span⟩)

/-- Observable result of the hyperscan_gz loop: the batches delivered so
far (in delivery order), the records still pending in the ring, the
return code, and state->line_number at loop exit. -/
structure LoopOut where
  ds : List (List Rec)
  pending : List Rec
  ret : Nat
  exitLn : Nat
deriving DecidableEq

/-- One hs_callback invocation on the ring: result_index is incremented
and the slot at the new index is written; writing slot capAlloc or beyond
is out of bounds for the allocated ring (none).  When the new index
equals max_result_index (fullIdx) the whole ring is delivered as a batch
of result_index + 1 records and result_index resets to -1.  We represent
the filled prefix of the ring by the list pending (so result_index =
pending.length - 1, with -1 as the empty list). -/
def hsCallback (capAlloc fullIdx : Nat) (r : Rec) (pending : List Rec)
    (ds : List (List Rec)) : Option (List Rec × List (List Rec)) :=
  if capAlloc ≤ pending.length then none
  else
    if pending.length = fullIdx then some ([], ds ++ [pending ++ [r]])
    else some (pending ++ [r], ds)

/-- Folding hs_callback over the ids reported by one hs_scan call, in
callback order. -/
def processMatches (capAlloc fullIdx ln : Nat) (span : List Nat) :
    List Nat → List Rec → List (List Rec) → Option (List Rec × List (List Rec))
  | [], pending, ds => some (pending, ds)
  | i :: rest, pending, ds =>
    match hsCallback capAlloc fullIdx ⟨i, ln, span⟩ pending ds with
    | none => none
    | some (p, d) => processMatches capAlloc fullIdx ln span rest p d

/-- The hyperscan_gz read/scan loop over an open byte stream.  Each
iteration: gzgets one line into the reused buffer (EOF breaks the loop
with the current ret, 0), strip leading NUL bytes, hs_scan the strlen
span (a failing scan sets ret HYPERSCANNER_SCAN and breaks), then check
the match quota (reaching it breaks), then increment line_number.  fuel
bounds the recursion; a gzgets call that reads no bytes from a nonempty
stream (buffer_size < 2) never makes progress, modelled as none. -/
def scanLoop (m : Matcher) (capAlloc fullIdx bsz mmc : Nat) :
    Nat → List Nat → List Nat → Nat → Nat → List Rec → List (List Rec) → Option LoopOut
  | _, [], _, ln, _, pending, ds => some ⟨ds, pending, 0, ln⟩
  | 0, _ :: _, _, _, _, _, _ => none
  | fuel + 1, b :: t, buf, ln, mc, pending, ds =>
    if readLen bsz (b :: t) = 0 then none
    else
      match scanSpan (writeBuf buf ((b :: t).take (readLen bsz (b :: t)))) with
      | none => none
      | some span =>
        match processMatches capAlloc fullIdx ln span (m span).1 pending ds with
        | none => none
        | some (p, d) =>
          if (m span).2 = false then some ⟨d, p, HYPERSCANNER_SCAN, ln⟩
          else if 0 < mmc ∧ mmc ≤ mc + (m span).1.length then some ⟨d, p, 0, ln⟩
          else
            scanLoop m capAlloc fullIdx bsz mmc fuel ((b :: t).drop (readLen bsz (b :: t)))
              (writeBuf buf ((b :: t).take (readLen bsz (b :: t)))) (ln + 1)
              (mc + (m span).1.length) p d

/-- Reference semantics of the same loop without the batching layer: the
stream of records the Matcher callbacks produce, in callback order,
together with the loop's return code.  This is what "the occurrences the
Matcher reports for the file's lines" denotes. -/
def scanOccsR (m : Matcher) (bsz mmc : Nat) :
    Nat → List Nat → List Nat → Nat → Nat → Option (List Rec × Nat)
  | _, [], _, _, _ => some ([], 0)
  | 0, _ :: _, _, _, _ => none
  | fuel + 1, b :: t, buf, ln, mc =>
    if readLen bsz (b :: t) = 0 then none
    else
      match scanSpan (writeBuf buf ((b :: t).take (readLen bsz (b :: t)))) with
      | none => none
      | some span =>
        if (m span).2 = false then some (lineRecords (m span).1 ln span, HYPERSCANNER_SCAN)
        else if 0 < mmc ∧ mmc ≤ mc + (m span).1.length then
          some (lineRecords (m span).1 ln span, 0)
        else
          match scanOccsR m bsz mmc fuel ((b :: t).drop (readLen bsz (b :: t)))
              (writeBuf buf ((b :: t).take (readLen bsz (b :: t)))) (ln + 1)
              (mc + (m span).1.length) with
          | none => none
          | some (occs, r) => some (lineRecords (m span).1 ln span ++ occs, r)

/-- Buffer count actually used by hyperscan: when 0 < max_match_count <
buffer_count the buffer count is lowered to max_match_count before the
ring is allocated. -/
def effectiveCount (buffer_count mmc : Nat) : Nat :=
  if 0 < mmc ∧ mmc < buffer_count then mmc else buffer_count

/-- Number of ring slots hyperscan allocates: max_results =
(int)(max_result_index + 1).  For buffer_count 0, max_result_index is the
unsigned wrap of -1 and max_results is 0. -/
def ringCap (bc : Nat) : Nat := if bc = 0 then 0 else bc

/-- state->max_result_index = buffer_count - 1, computed in unsigned int
arithmetic: for buffer_count 0 this wraps to 2 ^ 32 - 1. -/
def ringFullIdx (bc : Nat) : Nat := if bc = 0 then 2 ^ 32 - 1 else bc - 1

/-- Observable outcome of one hyperscan session: the delivered batches in
delivery order (full ring deliveries from inside the callback followed by
the final partial flush, if any), the return code, and the line counter
at which the scan loop exited. -/
structure Outcome where
  deliveries : List (List Rec)
  ret : Nat
  lastLine : Nat
deriving DecidableEq

/-- The hyperscan session (allocation failures aside, which are modelled
separately): adjust the buffer count against the quota, build the ring,
open the file (a failed gzopen yields HYPERSCANNER_GZ_OPEN, the loop body
never runs, and no batch is delivered), run the scan loop on the byte
stream, and afterwards flush the pending partial batch if result_index is
not -1.  buf0 is the malloc'd (uninitialized) line buffer contents. -/
def hyperscanRun (m : Matcher) (file : Option (List Nat)) (bsz bc mmc : Nat)
    (buf0 : List Nat) : Option Outcome :=
  match file with
  | none => some ⟨[], HYPERSCANNER_GZ_OPEN, 0⟩
  | some stream =>
    match scanLoop m (ringCap (effectiveCount bc mmc)) (ringFullIdx (effectiveCount bc mmc))
        bsz mmc stream.length stream buf0 0 0 [] [] with
    | none => none
    | some out =>
      if out.pending = [] then some ⟨out.ds, out.ret, out.exitLn⟩
      else some ⟨out.ds ++ [out.pending], out.ret, out.exitLn⟩

/-- Records a single scanned line contributes, as a function of the
residual buffer and the freshly read content: the scanned span tagged
with the given ids and the current line number (none when the strlen walk
leaves the buffer). -/
def lineOut (m : Matcher) (buf content : List Nat) (ln : Nat) : Option (List Rec) :=
  (scanSpan (writeBuf buf content)).map fun span => lineRecords (m span).1 ln span

/-- Resources hyperscan constructs: the state struct, the results array,
the per-slot line buffers, the pattern database, and the scratch space. -/
inductive Res where
  | state : Res
  | resultsArr : Res
  | slotLine : Nat → Res
  | db : Res
  | scratch : Res
deriving DecidableEq

/-- Construction outcome of hyperscan before the scan starts: which
resources were successfully constructed, the value of results_allocated
when control reaches the cleanup label (none when a goto jumped over its
initializer, leaving it indeterminate), and ret. -/
structure SetupOut where
  constructed : List Res
  resultsAllocated : Option Nat
  ret : Nat
deriving DecidableEq

/-- Number of per-slot line allocations that succeed before the first
failure in the slot loop. -/
def slotSuccesses (slotOk : Nat → Bool) (maxResults : Nat) : Nat :=
  ((List.range maxResults).takeWhile slotOk).length

/-- The allocation sequence of hyperscan, parametrized by which malloc /
hs calls succeed: state malloc (failure returns HYPERSCANNER_STATE_MEM
via goto cleanup, skipping the declaration-with-initializer of
results_allocated), results-array malloc (failure likewise reaches
cleanup with results_allocated still uninitialized), the per-slot line
mallocs counted by results_allocated, init_hs_db, and hs_alloc_scratch. -/
def hyperscanSetup (stateOk resultsOk : Bool) (slotOk : Nat → Bool)
    (dbOk scratchOk : Bool) (maxResults : Nat) : SetupOut :=
  if stateOk = false then ⟨[], none, HYPERSCANNER_STATE_MEM⟩
  else if resultsOk = false then ⟨[Res.state], none, HYPERSCANNER_COMPILE_MEM⟩
  else if slotSuccesses slotOk maxResults < maxResults then
    ⟨Res.state :: Res.resultsArr ::
        (List.range (slotSuccesses slotOk maxResults)).map Res.slotLine,
      some (slotSuccesses slotOk maxResults), HYPERSCANNER_COMPILE_MEM⟩
  else if dbOk = false then
    ⟨Res.state :: Res.resultsArr :: (List.range maxResults).map Res.slotLine,
      some maxResults, HYPERSCANNER_DB⟩
  else if scratchOk = false then
    ⟨Res.state :: Res.resultsArr :: (List.range maxResults).map Res.slotLine ++ [Res.db],
      some maxResults, HYPERSCANNER_SCRATCH⟩
  else
    ⟨Res.state :: Res.resultsArr :: (List.range maxResults).map Res.slotLine ++
        [Res.db, Res.scratch], some maxResults, 0⟩

/-- What the cleanup block frees: line slots 0 .. results_allocated - 1
(reading the garbage value when results_allocated is uninitialized), then
free(state), then the null-safe hs_free_scratch and hs_free_database.
The results array itself (state->results) appears nowhere. -/
def cleanupFrees (o : SetupOut) (garbage : Nat) : List Res :=
  (List.range (o.resultsAllocated.getD garbage)).map Res.slotLine ++
    (if o.constructed.contains Res.state then [Res.state] else []) ++
    (if o.constructed.contains Res.scratch then [Res.scratch] else []) ++
    (if o.constructed.contains Res.db then [Res.db] else [])

/-- HS_FLAG_DOTALL (2) | HS_FLAG_MULTILINE (4) | HS_FLAG_SINGLEMATCH (8),
the flag word main stores per pattern. -/
def HS_FLAGS_MAIN : Nat := 14

/-- Bounds-checked write into a C array modelled as a list: writing past
the end is out of bounds (none). -/
def setArr (l : List Nat) (i v : Nat) : Option (List Nat) :=
  if i < l.length then some (l.set i v) else none

/-- The per-file loop of main: iteration j (file argv[j + 2]) declares
one-element arrays pattern_flags and pattern_ids and writes them at index
i - 2 = j — in bounds only for the first file — then overwrites ret with
this file's hyperscan status.  buffer_size 65535, buffer_count 256 and
max_match_count 0 are main's hard-coded arguments. -/
def mainLoop (m : Matcher) (buf0 : List Nat) :
    Nat → List (Option (List Nat)) → Nat → Option Nat
  | _, [], ret => some ret
  | j, f :: fs, _ =>
    match setArr [0] j HS_FLAGS_MAIN, setArr [0] j j with
    | some _, some _ =>
      match hyperscanRun m f 65535 256 0 buf0 with
      | none => none
      | some o => mainLoop m buf0 (j + 1) fs o.ret
    | _, _ => none

/-- The driver main over an ordered list of input files (each either
unopenable, none, or a byte stream), starting with ret = 0. -/
def mainModel (m : Matcher) (files : List (Option (List Nat))) (buf0 : List Nat) :
    Option Nat :=
  mainLoop m buf0 0 files 0

/-- Records produced for one line all carry that line's number. -/
theorem lineRecords_line_number (ids : List Nat) (ln : Nat) (span : List Nat) :
    ∀ r ∈ lineRecords ids ln span, r.line_number = ln := by
  intro r hr
  simp only [lineRecords, List.mem_map] at hr
  obtain ⟨i, _, rfl⟩ := hr
  rfl

/-- Length of the record list for one line. -/
theorem lineRecords_length (ids : List Nat) (ln : Nat) (span : List Nat) :
    (lineRecords ids ln span).length = ids.length := by
  simp [lineRecords]

/-- A list of records that all share one line number is chained by ≤ on
line numbers. -/
theorem chain'_map_of_const (l : List Rec) (c : Nat)
    (h : ∀ r ∈ l, r.line_number = c) :
    List.Chain' (· ≤ ·) (l.map Rec.line_number) := by
  induction l with
  | nil => simp
  | cons a l ih =>
    rw [List.map_cons, List.chain'_cons']
    refine ⟨?_, ih fun r hr => h r (List.mem_cons_of_mem a hr)⟩
    intro y hy
    have hmem := List.mem_of_mem_head? hy
    rw [List.mem_map] at hmem
    obtain ⟨r, hr, rfl⟩ := hmem
    rw [h a (List.mem_cons_self a l), h r (List.mem_cons_of_mem a hr)]

/-- Appending a constant block of line numbers in front of a chained list
whose entries dominate the constant keeps the chain. -/
theorem chain'_map_append (l₁ l₂ : List Rec) (c : Nat)
    (h1 : ∀ r ∈ l₁, r.line_number = c)
    (h2 : List.Chain' (· ≤ ·) (l₂.map Rec.line_number))
    (h3 : ∀ r ∈ l₂, c ≤ r.line_number) :
    List.Chain' (· ≤ ·) ((l₁ ++ l₂).map Rec.line_number) := by
  induction l₁ with
  | nil => simpa using h2
  | cons a l ih =>
    have ihl := ih fun r hr => h1 r (List.mem_cons_of_mem a hr)
    rw [List.cons_append, List.map_cons, List.chain'_cons']
    refine ⟨?_, ihl⟩
    intro y hy
    have hmem := List.mem_of_mem_head? hy
    rw [List.mem_map] at hmem
    obtain ⟨r, hr, rfl⟩ := hmem
    rw [List.mem_append] at hr
    rw [h1 a (List.mem_cons_self a l)]
    rcases hr with hr | hr
    · rw [h1 r (List.mem_cons_of_mem a hr)]
    · exact h3 r hr

/-- Invariant of one hs_scan call's worth of callbacks: with the ring
capacity one more than max_result_index and the fill below capacity, the
fold over the reported ids succeeds, the delivered batches plus the new
pending list extend the old ones by exactly this line's records, the new
fill stays below capacity, and every batch delivered here is full. -/
theorem processMatches_spec (capAlloc fullIdx ln : Nat) (span : List Nat)
    (hcap : capAlloc = fullIdx + 1) :
    ∀ (ids : List Nat) (pending : List Rec) (ds : List (List Rec)),
      pending.length ≤ fullIdx →
      ∃ p d, processMatches capAlloc fullIdx ln span ids pending ds = some (p, d) ∧
        d.flatten ++ p = ds.flatten ++ pending ++ lineRecords ids ln span ∧
        p.length ≤ fullIdx ∧
        (∀ b ∈ d, b ∈ ds ∨ b.length = fullIdx + 1) := by
  intro ids
  induction ids with
  | nil =>
    intro pending ds hp
    exact ⟨pending, ds, rfl, by simp [lineRecords], hp, fun b hb => Or.inl hb⟩
  | cons i rest ih =>
    intro pending ds hp
    have hnotfull : ¬ capAlloc ≤ pending.length := by omega
    by_cases hfull : pending.length = fullIdx
    · obtain ⟨p, d, heq, hjoin, hplen, hball⟩ :=
        ih [] (ds ++ [pending ++ [(⟨i, ln, span⟩ : Rec)]]) (Nat.zero_le _)
      refine ⟨p, d, ?_, ?_, hplen, ?_⟩
      · simp only [processMatches, hsCallback, if_neg hnotfull, if_pos hfull]
        exact heq
      · rw [hjoin]
        simp [lineRecords, List.append_assoc]
      · intro b hb
        rcases hball b hb with hb' | hb'
        · rw [List.mem_append] at hb'
          rcases hb' with hb' | hb'
          · exact Or.inl hb'
          · simp only [List.mem_singleton] at hb'
            subst hb'
            right
            simp [← hfull]
        · exact Or.inr hb'
    · obtain ⟨p, d, heq, hjoin, hplen, hball⟩ :=
        ih (pending ++ [(⟨i, ln, span⟩ : Rec)]) ds (by simp; omega)
      refine ⟨p, d, ?_, ?_, hplen, hball⟩
      · simp only [processMatches, hsCallback, if_neg hnotfull, if_neg hfull]
        exact heq
      · rw [hjoin]
        simp [lineRecords, List.append_assoc]

/-- Main correspondence between the batched loop and the reference
callback stream.  If the batched loop of hyperscan_gz completes without
undefined behaviour, then (i) the reference stream is defined and the
loop's return code matches the reference return code, (ii) delivered
batches plus the pending ring extend the incoming ones by exactly the
reference records, (iii) the ring fill stays below capacity, (iv) every
batch delivered by a callback is full, (v) record line numbers lie
between the incoming line counter and the exit line counter and are
chained non-decreasingly, and (vi) while the quota is active and unmet on
entry, the records on lines before the exit line never reach the quota. -/
theorem scanLoop_spec (m : Matcher) (capAlloc fullIdx bsz mmc : Nat)
    (hcap : capAlloc = fullIdx + 1) :
    ∀ (fuel : Nat) (s buf : List Nat) (ln mc : Nat) (pending : List Rec)
      (ds : List (List Rec)) (out : LoopOut),
      pending.length ≤ fullIdx →
      scanLoop m capAlloc fullIdx bsz mmc fuel s buf ln mc pending ds = some out →
      ∃ occs rret,
        scanOccsR m bsz mmc fuel s buf ln mc = some (occs, rret) ∧
        out.ret = rret ∧
        out.ds.flatten ++ out.pending = ds.flatten ++ pending ++ occs ∧
        out.pending.length ≤ fullIdx ∧
        (∀ b ∈ out.ds, b ∈ ds ∨ b.length = fullIdx + 1) ∧
        (∀ r ∈ occs, ln ≤ r.line_number ∧ r.line_number ≤ out.exitLn) ∧
        ln ≤ out.exitLn ∧
        List.Chain' (· ≤ ·) (occs.map Rec.line_number) ∧
        (0 < mmc → mc < mmc → mmc ≤ mc + occs.length →
          mc + (occs.filter (fun r => decide (r.line_number < out.exitLn))).length < mmc) := by
  intro fuel
  induction fuel with
  | zero =>
    intro s buf ln mc pending ds out hp hrun
    cases s with
    | nil =>
      simp only [scanLoop, Option.some.injEq] at hrun
      subst hrun
      refine ⟨[], 0, rfl, rfl, by simp, hp, fun b hb => Or.inl hb, by simp, Nat.le_refl ln,
        by simp, ?_⟩
      intro _ hmc hcross
      simp at hcross
      omega
    | cons b t => simp [scanLoop] at hrun
  | succ fuel ih =>
    intro s buf ln mc pending ds out hp hrun
    cases s with
    | nil =>
      simp only [scanLoop, Option.some.injEq] at hrun
      subst hrun
      refine ⟨[], 0, rfl, rfl, by simp, hp, fun b hb => Or.inl hb, by simp, Nat.le_refl ln,
        by simp, ?_⟩
      intro _ hmc hcross
      simp at hcross
      omega
    | cons b t =>
      rw [scanLoop] at hrun
      by_cases hn : readLen bsz (b :: t) = 0
      · rw [if_pos hn] at hrun
        exact absurd hrun (by simp)
      · rw [if_neg hn] at hrun
        cases hsp : scanSpan (writeBuf buf ((b :: t).take (readLen bsz (b :: t)))) with
        | none =>
          rw [hsp] at hrun
          simp at hrun
        | some span =>
          simp only [hsp] at hrun
          obtain ⟨p, d, hpm, hjoin, hplen, hball⟩ :=
            processMatches_spec capAlloc fullIdx ln span hcap (m span).1 pending ds hp
          simp only [hpm] at hrun
          have hline := lineRecords_line_number (m span).1 ln span
          by_cases hok : (m span).2 = false
          · rw [if_pos hok, Option.some.injEq] at hrun
            subst hrun
            refine ⟨lineRecords (m span).1 ln span, HYPERSCANNER_SCAN, ?_, rfl, hjoin, hplen,
              hball, ?_, Nat.le_refl ln, chain'_map_of_const _ ln hline, ?_⟩
            · simp only [scanOccsR, if_neg hn, hsp, if_pos hok]
            · intro r hr
              rw [hline r hr]
              exact ⟨Nat.le_refl ln, Nat.le_refl ln⟩
            · intro _ hmc _
              have hnil : (lineRecords (m span).1 ln span).filter
                  (fun r => decide (r.line_number < ln)) = [] := by
                rw [List.filter_eq_nil_iff]
                intro r hr
                rw [hline r hr]
                simp
              rw [hnil]
              simpa using hmc
          · by_cases hquo : 0 < mmc ∧ mmc ≤ mc + (m span).1.length
            · rw [if_neg hok, if_pos hquo, Option.some.injEq] at hrun
              subst hrun
              refine ⟨lineRecords (m span).1 ln span, 0, ?_, rfl, hjoin, hplen,
                hball, ?_, Nat.le_refl ln, chain'_map_of_const _ ln hline, ?_⟩
              · simp only [scanOccsR, if_neg hn, hsp, if_neg hok, if_pos hquo]
              · intro r hr
                rw [hline r hr]
                exact ⟨Nat.le_refl ln, Nat.le_refl ln⟩
              · intro _ hmc _
                have hnil : (lineRecords (m span).1 ln span).filter
                    (fun r => decide (r.line_number < ln)) = [] := by
                  rw [List.filter_eq_nil_iff]
                  intro r hr
                  rw [hline r hr]
                  simp
                rw [hnil]
                simpa using hmc
            · rw [if_neg hok, if_neg hquo] at hrun
              obtain ⟨occs', rret, href, hret, hjoin', hplen', hball', hocc', hln', hchain',
                hquota'⟩ := ih _ _ _ _ _ _ _ hplen hrun
              refine ⟨lineRecords (m span).1 ln span ++ occs', rret, ?_, hret, ?_, hplen',
                ?_, ?_, ?_, ?_, ?_⟩
              · simp only [scanOccsR, if_neg hn, hsp, if_neg hok, if_neg hquo, href]
              · rw [hjoin', hjoin]
                simp [List.append_assoc]
              · intro bb hb
                rcases hball' bb hb with h | h
                · exact hball bb h
                · exact Or.inr h
              · intro r hr
                rw [List.mem_append] at hr
                rcases hr with hr | hr
                · rw [hline r hr]
                  exact ⟨Nat.le_refl ln, by omega⟩
                · obtain ⟨h1, h2⟩ := hocc' r hr
                  exact ⟨by omega, h2⟩
              · omega
              · exact chain'_map_append _ _ ln hline hchain'
                  (fun r hr => by have := (hocc' r hr).1; omega)
              · intro h0 hmc hcross
                rw [List.filter_append]
                have hfl : (lineRecords (m span).1 ln span).filter
                    (fun r => decide (r.line_number < out.exitLn)) =
                    lineRecords (m span).1 ln span := by
                  rw [List.filter_eq_self]
                  intro r hr
                  rw [hline r hr]
                  simp only [decide_eq_true_eq]
                  omega
                rw [hfl]
                have hq1 : mc + (m span).1.length < mmc := by
                  rcases Nat.lt_or_ge (mc + (m span).1.length) mmc with h | h
                  · exact h
                  · exact absurd ⟨h0, h⟩ hquo
                have hcross' : mmc ≤ mc + (m span).1.length + occs'.length := by
                  rw [List.length_append, lineRecords_length] at hcross
                  omega
                have := hquota' h0 hq1 hcross'
                rw [List.length_append, lineRecords_length]
                omega

/-- The adjusted buffer count is positive whenever the configured one is. -/
theorem one_le_effectiveCount (bc mmc : Nat) (hbc : 1 ≤ bc) :
    1 ≤ effectiveCount bc mmc := by
  unfold effectiveCount
  split <;> omega

/-- The adjusted buffer count never exceeds the configured one. -/
theorem effectiveCount_le (bc mmc : Nat) : effectiveCount bc mmc ≤ bc := by
  unfold effectiveCount
  split <;> omega

/-- Session-level correspondence: a hyperscan session (with a positive
configured buffer count) that completes without undefined behaviour
delivers, over all batches in order, exactly the reference callback
stream; its return code is the reference return code; every delivered
batch is nonempty and no larger than the ring capacity; every batch
except possibly the last is exactly full; record line numbers are bounded
by the exit line and non-decreasing; and with an active quota the records
on lines before the exit line stay below the quota. -/
theorem hyperscanRun_spec (m : Matcher) (stream buf0 : List Nat) (bsz bc mmc : Nat)
    (o : Outcome) (hbc : 1 ≤ bc)
    (hrun : hyperscanRun m (some stream) bsz bc mmc buf0 = some o) :
    ∃ occs rret,
      scanOccsR m bsz mmc stream.length stream buf0 0 0 = some (occs, rret) ∧
      o.ret = rret ∧
      o.deliveries.flatten = occs ∧
      (∀ b ∈ o.deliveries, 1 ≤ b.length ∧ b.length ≤ effectiveCount bc mmc) ∧
      (∀ b ∈ o.deliveries.dropLast, b.length = effectiveCount bc mmc) ∧
      (∀ r ∈ occs, r.line_number ≤ o.lastLine) ∧
      List.Chain' (· ≤ ·) (occs.map Rec.line_number) ∧
      (0 < mmc → mmc ≤ occs.length →
        (occs.filter (fun r => decide (r.line_number < o.lastLine))).length < mmc) := by
  have he1 : 1 ≤ effectiveCount bc mmc := one_le_effectiveCount bc mmc hbc
  have hrc : ringCap (effectiveCount bc mmc) = effectiveCount bc mmc := by
    unfold ringCap
    rw [if_neg (by omega)]
  have hrf : ringFullIdx (effectiveCount bc mmc) = effectiveCount bc mmc - 1 := by
    unfold ringFullIdx
    rw [if_neg (by omega)]
  have hcap : ringCap (effectiveCount bc mmc) = ringFullIdx (effectiveCount bc mmc) + 1 := by
    rw [hrc, hrf]
    omega
  simp only [hyperscanRun] at hrun
  cases hloop : scanLoop m (ringCap (effectiveCount bc mmc))
      (ringFullIdx (effectiveCount bc mmc)) bsz mmc stream.length stream buf0 0 0 [] [] with
  | none =>
    rw [hloop] at hrun
    exact absurd hrun (by simp)
  | some out =>
    rw [hloop] at hrun
    obtain ⟨occs, rret, href, hret, hjoin, hplen, hball, hocc, _, hchain, hquota⟩ :=
      scanLoop_spec m _ _ bsz mmc hcap stream.length stream buf0 0 0 [] [] out
        (Nat.zero_le _) hloop
    simp only [List.flatten_nil, List.nil_append] at hjoin
    have hball' : ∀ b ∈ out.ds, b.length = effectiveCount bc mmc := by
      intro bb hb
      rcases hball bb hb with h | h
      · exact absurd h (List.not_mem_nil bb)
      · rw [h, ← hcap, hrc]
    refine ⟨occs, rret, href, ?_, ?_, ?_, ?_, ?_, ?_, ?_⟩
    · by_cases hpe : out.pending = [] <;>
        simp only [hpe, if_pos, if_neg, if_true, if_false, reduceIte, Option.some.injEq] at hrun <;>
        subst hrun <;> exact hret
    · by_cases hpe : out.pending = []
      · simp only [hpe, reduceIte, Option.some.injEq] at hrun
        subst hrun
        simpa [hpe] using hjoin
      · simp only [hpe, reduceIte, Option.some.injEq] at hrun
        subst hrun
        simpa using hjoin
    · intro bb hb
      by_cases hpe : out.pending = [] <;>
        simp only [hpe, reduceIte, Option.some.injEq] at hrun <;> subst hrun
      · have := hball' bb hb
        omega
      · simp only [List.mem_append, List.mem_singleton] at hb
        rcases hb with hb | hb
        · have := hball' bb hb
          omega
        · subst hb
          have h1 : 0 < out.pending.length := List.length_pos.2 hpe
          rw [hrf] at hplen
          omega
    · intro bb hb
      by_cases hpe : out.pending = [] <;>
        simp only [hpe, reduceIte, Option.some.injEq] at hrun <;> subst hrun
      · exact hball' bb ((List.dropLast_prefix _).subset hb)
      · rw [List.dropLast_concat] at hb
        exact hball' bb hb
    · intro r hr
      by_cases hpe : out.pending = [] <;>
        simp only [hpe, reduceIte, Option.some.injEq] at hrun <;> subst hrun <;>
        exact (hocc r hr).2
    · exact hchain
    · intro h0 hcross
      by_cases hpe : out.pending = [] <;>
        simp only [hpe, reduceIte, Option.some.injEq] at hrun <;> subst hrun <;>
        simpa using hquota h0 h0 (by omega)

/-- Records bounded above by k split into those strictly below k and
those equal to k. -/
theorem length_le_filters (l : List Rec) (k : Nat) (h : ∀ r ∈ l, r.line_number ≤ k) :
    l.length ≤ (l.filter (fun r => decide (r.line_number < k))).length +
      (l.filter (fun r => decide (r.line_number = k))).length := by
  induction l with
  | nil => simp
  | cons a l ih =>
    have ha := h a (List.mem_cons_self a l)
    have ih' := ih fun r hr => h r (List.mem_cons_of_mem a hr)
    rcases Nat.lt_or_ge a.line_number k with h1 | h1
    · have e1 : List.filter (fun r => decide (r.line_number < k)) (a :: l) =
          a :: List.filter (fun r => decide (r.line_number < k)) l :=
        List.filter_cons_of_pos (by simpa using h1)
      have e2 : List.filter (fun r => decide (r.line_number = k)) (a :: l) =
          List.filter (fun r => decide (r.line_number = k)) l :=
        List.filter_cons_of_neg (by simp only [decide_eq_true_eq]; omega)
      rw [e1, e2, List.length_cons, List.length_cons]
      omega
    · have h2 : a.line_number = k := by omega
      have e1 : List.filter (fun r => decide (r.line_number < k)) (a :: l) =
          List.filter (fun r => decide (r.line_number < k)) l :=
        List.filter_cons_of_neg (by simp only [decide_eq_true_eq]; omega)
      have e2 : List.filter (fun r => decide (r.line_number = k)) (a :: l) =
          a :: List.filter (fun r => decide (r.line_number = k)) l :=
        List.filter_cons_of_pos (by simpa using h2)
      rw [e1, e2, List.length_cons, List.length_cons]
      omega

/-- C1: for every input file, the records in the delivered batches,
concatenated in delivery order (full-ring deliveries from inside
hs_callback followed by the final partial flush), are exactly the
occurrences the Matcher reports for that file's lines — each carrying the
id the Matcher reported and state->line_number at the time of the
callback, in callback (left-to-right) order within a line — and the
line numbers are non-decreasing across the concatenation. -/
theorem hyperscan_C1_delivery_exact (m : Matcher) (stream buf0 : List Nat)
    (bsz bc mmc : Nat) (o : Outcome) (occs : List Rec) (rret : Nat)
    (hbc : 1 ≤ bc)
    (hrun : hyperscanRun m (some stream) bsz bc mmc buf0 = some o)
    (href : scanOccsR m bsz mmc stream.length stream buf0 0 0 = some (occs, rret)) :
    o.deliveries.flatten = occs ∧
    List.Chain' (· ≤ ·) (occs.map Rec.line_number) := by
  obtain ⟨occs', rret', href', _, hfl, _, _, _, hchain, _⟩ :=
    hyperscanRun_spec m stream buf0 bsz bc mmc o hbc hrun
  rw [href] at href'
  obtain ⟨h1, _⟩ := Prod.mk.injEq .. ▸ (Option.some.injEq .. ▸ href')
  subst h1
  exact ⟨hfl, hchain⟩

/-- C2: every delivered batch has 1 ≤ count ≤ batch_capacity (the
configured buffer_count); a full-ring delivery passes exactly the ring
capacity (the effective buffer count) and every delivery before the last
one is such a full delivery; the end-of-session flush is skipped when no
records are pending, so an empty batch is never delivered. -/
theorem hyperscan_C2_batch_bounds (m : Matcher) (stream buf0 : List Nat)
    (bsz bc mmc : Nat) (o : Outcome) (hbc : 1 ≤ bc)
    (hrun : hyperscanRun m (some stream) bsz bc mmc buf0 = some o) :
    (∀ b ∈ o.deliveries, 1 ≤ b.length ∧ b.length ≤ bc) ∧
    (∀ b ∈ o.deliveries.dropLast, b.length = effectiveCount bc mmc) := by
  obtain ⟨occs, rret, _, _, _, hsz, hfull, _, _, _⟩ :=
    hyperscanRun_spec m stream buf0 bsz bc mmc o hbc hrun
  have hle := effectiveCount_le bc mmc
  refine ⟨?_, hfull⟩
  intro b hb
  obtain ⟨h1, h2⟩ := hsz b hb
  exact ⟨h1, by omega⟩

/-- C7: with an active quota N = max_match_count > 0, if the quota was
reached then the loop exited on the very line that crossed it: strictly
earlier lines carry fewer than N records, the total number of delivered
records exceeds N by at most the number of matches on that crossing
line, and no record (hence no matcher call) comes from a later line. -/
theorem hyperscan_C7_quota_stop (m : Matcher) (stream buf0 : List Nat)
    (bsz bc mmc : Nat) (o : Outcome) (hbc : 1 ≤ bc) (hm : 0 < mmc)
    (hrun : hyperscanRun m (some stream) bsz bc mmc buf0 = some o)
    (hcross : mmc ≤ o.deliveries.flatten.length) :
    (o.deliveries.flatten.filter (fun r => decide (r.line_number < o.lastLine))).length < mmc ∧
    o.deliveries.flatten.length ≤ mmc +
      (o.deliveries.flatten.filter (fun r => decide (r.line_number = o.lastLine))).length ∧
    (∀ r ∈ o.deliveries.flatten, r.line_number ≤ o.lastLine) := by
  obtain ⟨occs, rret, _, _, hfl, _, _, hbound, _, hquota⟩ :=
    hyperscanRun_spec m stream buf0 bsz bc mmc o hbc hrun
  subst hfl
  have h1 := hquota hm hcross
  have h2 := length_le_filters o.deliveries.flatten o.lastLine hbound
  exact ⟨h1, by omega, hbound⟩

/-- C8: when a matcher scan call fails mid-file (the reference loop ends
with HYPERSCANNER_SCAN on the failing line), the session's return code is
HYPERSCANNER_SCAN — not success — the records accumulated so far
(including the pending partial batch, delivered by the end-of-session
flush) are exactly what the caller receives, and no record comes from a
line after the one on which the failure occurred. -/
theorem hyperscan_C8_scan_failure (m : Matcher) (stream buf0 : List Nat)
    (bsz bc mmc : Nat) (o : Outcome) (occs : List Rec) (hbc : 1 ≤ bc)
    (hrun : hyperscanRun m (some stream) bsz bc mmc buf0 = some o)
    (href : scanOccsR m bsz mmc stream.length stream buf0 0 0 =
      some (occs, HYPERSCANNER_SCAN)) :
    o.ret = HYPERSCANNER_SCAN ∧ o.ret ≠ 0 ∧ o.deliveries.flatten = occs ∧
    (∀ r ∈ occs, r.line_number ≤ o.lastLine) := by
  obtain ⟨occs', rret', href', hret, hfl, _, _, hbound, _, _⟩ :=
    hyperscanRun_spec m stream buf0 bsz bc mmc o hbc hrun
  rw [href] at href'
  obtain ⟨h1, h2⟩ := Prod.mk.injEq .. ▸ (Option.some.injEq .. ▸ href')
  subst h1
  subst h2
  refine ⟨hret, ?_, hfl, hbound⟩
  rw [hret]
  simp [HYPERSCANNER_SCAN]

/-- C10: when 0 < max_match_count < buffer_count, hyperscan lowers the
ring capacity to max_match_count before allocating the result ring, so
every delivered batch holds at most match_quota records and every
delivery before the last is a full-ring delivery of exactly match_quota
records. -/
theorem hyperscan_C10_quota_caps_ring (m : Matcher) (stream buf0 : List Nat)
    (bsz bc mmc : Nat) (o : Outcome) (h1 : 0 < mmc) (h2 : mmc < bc)
    (hrun : hyperscanRun m (some stream) bsz bc mmc buf0 = some o) :
    effectiveCount bc mmc = mmc ∧
    (∀ b ∈ o.deliveries, 1 ≤ b.length ∧ b.length ≤ mmc) ∧
    (∀ b ∈ o.deliveries.dropLast, b.length = mmc) := by
  have heff : effectiveCount bc mmc = mmc := by
    unfold effectiveCount
    rw [if_pos ⟨h1, h2⟩]
  obtain ⟨occs, rret, _, _, _, hsz, hfull, _, _, _⟩ :=
    hyperscanRun_spec m stream buf0 bsz bc mmc o (by omega) hrun
  rw [heff] at hsz hfull
  exact ⟨heff, hsz, hfull⟩

/-- takeWhile with a nonzero test stops at an interposed 0 byte. -/
theorem takeWhile_append_zero (l t : List Nat) :
    (l ++ 0 :: t).takeWhile (fun b => b != 0) = l.takeWhile (fun b => b != 0) := by
  induction l with
  | nil => simp [List.takeWhile_cons]
  | cons a l ih =>
    by_cases ha : a = 0 <;> simp [List.takeWhile_cons, ha, ih]

/-- takeWhile never yields more than its input. -/
theorem takeWhile_length_le (p : Nat → Bool) (l : List Nat) :
    (l.takeWhile p).length ≤ l.length := by
  induction l with
  | nil => simp
  | cons a l ih =>
    by_cases h : p a
    · simp only [List.takeWhile_cons, h, if_true, List.length_cons]
      omega
    · simp only [List.takeWhile_cons, h, if_false, Bool.false_eq_true, reduceIte,
        List.length_nil, List.length_cons]
      omega

/-- A list with a nonzero byte has a first nonzero byte, and the strip
offset points at it. -/
theorem firstNonzero_eq_stripStart (l : List Nat) (h : ∃ x ∈ l, x ≠ 0) :
    firstNonzero l = some (stripStart l) := by
  cases l with
  | nil => simp at h
  | cons b t =>
    by_cases hb : b = 0
    · subst hb
      have ht : ∃ x ∈ t, x ≠ 0 := by
        obtain ⟨x, hx, hxnz⟩ := h
        rcases List.mem_cons.1 hx with rfl | hx
        · exact absurd rfl hxnz
        · exact ⟨x, hx, hxnz⟩
      have : ∃ j, firstNonzero t = some j := by
        clear h
        induction t with
        | nil => simp at ht
        | cons a s ih =>
          by_cases ha : a = 0
          · subst ha
            have hs : ∃ x ∈ s, x ≠ 0 := by
              obtain ⟨x, hx, hxnz⟩ := ht
              rcases List.mem_cons.1 hx with rfl | hx
              · exact absurd rfl hxnz
              · exact ⟨x, hx, hxnz⟩
            obtain ⟨j, hj⟩ := ih hs
            exact ⟨j + 1, by simp [firstNonzero, hj]⟩
          · exact ⟨0, by simp [firstNonzero, ha]⟩
      obtain ⟨j, hj⟩ := this
      simp [firstNonzero, stripStart, hj]
    · simp [firstNonzero, stripStart, hb]

/-- Prepending a zero byte to a buffer that still holds a nonzero byte
moves the strip offset by one and leaves the scanned span unchanged. -/
theorem stripStart_cons_zero (L : List Nat) (h : ∃ x ∈ L, x ≠ 0) :
    stripStart (0 :: L) = stripStart L + 1 ∧ scanSpan (0 :: L) = scanSpan L := by
  have hfz := firstNonzero_eq_stripStart L h
  have hstrip : stripStart (0 :: L) = stripStart L + 1 := by
    simp [stripStart, hfz]
  refine ⟨hstrip, ?_⟩
  unfold scanSpan
  rw [hstrip]
  rfl

/-- gzgets writing a line that begins with a zero byte is the same as
writing the tail one position later: the terminator and residual bytes
line up. -/
theorem writeBuf_cons_zero (buf content : List Nat) :
    writeBuf buf (0 :: content) = 0 :: writeBuf (buf.drop 1) content := by
  simp only [writeBuf, List.length_cons, List.cons_append, List.drop_drop]
  rw [Nat.add_comm 1 (content.length + 1)]

/-- The span scanned from a buffer whose fresh content has a nonzero
first byte is the content up to its first zero byte, with no strip. -/
theorem scanSpan_head_nonzero (buf content : List Nat) (c : Nat)
    (hc : content.head? = some c) (hcnz : c ≠ 0) :
    scanSpan (writeBuf buf content) = some (content.takeWhile (fun b => b != 0)) ∧
    stripStart (writeBuf buf content) = 0 := by
  cases content with
  | nil => simp at hc
  | cons b t =>
    have hb : b = c := by simpa using hc
    subst hb
    have hstrip : stripStart (writeBuf buf (b :: t)) = 0 := by
      simp [writeBuf, stripStart, hcnz]
    refine ⟨?_, hstrip⟩
    have hshape : writeBuf buf (b :: t) = (b :: t) ++ 0 :: buf.drop ((b :: t).length + 1) := by
      simp [writeBuf]
    have hany : ((b :: t) ++ 0 :: buf.drop ((b :: t).length + 1)).any (fun x => x == 0) = true := by
      rw [List.any_eq_true]
      exact ⟨0, by simp, by simp⟩
    have hstrip2 : stripStart ((b :: t) ++ 0 :: buf.drop ((b :: t).length + 1)) = 0 := by
      simp [stripStart, hcnz]
    simp only [scanSpan, hshape, hstrip2, List.drop_zero, hany, if_true, reduceIte]
    rw [takeWhile_append_zero]

/-- Any number of leading zero bytes in the fresh content is stripped
without escaping the content, landing on the same span as the content
without them. -/
theorem scanSpan_replicate_zero (text : List Nat) (c : Nat)
    (hc : text.head? = some c) (hcnz : c ≠ 0) :
    ∀ (k : Nat) (buf : List Nat),
      scanSpan (writeBuf buf (List.replicate k 0 ++ text)) =
        some (text.takeWhile (fun b => b != 0)) ∧
      stripStart (writeBuf buf (List.replicate k 0 ++ text)) = k := by
  intro k
  induction k with
  | zero =>
    intro buf
    simpa using scanSpan_head_nonzero buf text c hc hcnz
  | succ k ih =>
    intro buf
    have hcons : List.replicate (k + 1) 0 ++ text = 0 :: (List.replicate k 0 ++ text) := by
      simp [List.replicate_succ]
    rw [hcons, writeBuf_cons_zero]
    have hmem : ∃ x ∈ writeBuf (buf.drop 1) (List.replicate k 0 ++ text), x ≠ 0 := by
      refine ⟨c, ?_, hcnz⟩
      have : c ∈ text := List.mem_of_mem_head? (by rw [hc]; rfl)
      simp [writeBuf, this]
    obtain ⟨hstrip, hspan⟩ := stripStart_cons_zero _ hmem
    obtain ⟨ih1, ih2⟩ := ih (buf.drop 1)
    rw [hspan, hstrip, ih1, ih2]
    exact ⟨rfl, rfl⟩

/-- C3 (claim fails on the code): on the fully successful construction
path the results array (state->results) is a constructed resource that
the cleanup block never frees — a leak on every call — and on the path
where the results-array malloc fails, the goto to cleanup jumps over the
initializer of results_allocated, so the slot-free loop's bound is
indeterminate (modelled: none) and with residual stack value 1 the loop
frees slot 0, a resource that was never constructed (dereferencing the
null state->results). -/
theorem hyperscan_C3_cleanup_bug :
    (hyperscanSetup true true (fun _ => true) true true 2).constructed.contains
      Res.resultsArr = true ∧
    (cleanupFrees (hyperscanSetup true true (fun _ => true) true true 2) 0).contains
      Res.resultsArr = false ∧
    (hyperscanSetup true false (fun _ => true) true true 2).resultsAllocated = none ∧
    (cleanupFrees (hyperscanSetup true false (fun _ => true) true true 2) 1).contains
      (Res.slotLine 0) = true ∧
    (hyperscanSetup true false (fun _ => true) true true 2).constructed.contains
      (Res.slotLine 0) = false := by decide

/-- C4 (claim fails on the code): with two input files, the second loop
iteration writes pattern_flags[1] and pattern_ids[1], out of bounds of
the one-element stack arrays (undefined behaviour, modelled as none), so
the multi-file guarantees cannot hold; a single-file run works and
returns that file's status (here HYPERSCANNER_GZ_OPEN for an unopenable
path).  Moreover ret is overwritten every iteration, so even with the
indexing repaired the overall status would be the last file's, not the
first error's. -/
theorem hyperscan_C4_main_oob :
    mainModel (fun _ => ([], true)) [none, none] [] = none ∧
    mainModel (fun _ => ([], true)) [none] [] = some HYPERSCANNER_GZ_OPEN := by decide

/-- C5 (claim fails on the code): hyperscan performs no check on
buffer_count = 0.  The unsigned max_result_index wraps to 2 ^ 32 - 1, the
ring is allocated with zero slots, the session proceeds to open and scan
the file, and the first match writes ring slot 0 out of bounds (modelled
as none) — it is not rejected as a construction error before opening the
file. -/
theorem hyperscan_C5_zero_capacity :
    hyperscanRun (fun span => (if span = [97, 10] then [0] else [], true))
      (some [97, 10]) 4 0 0 [7, 7, 7, 7] = none ∧
    ringCap (effectiveCount 0 0) = 0 ∧
    ringFullIdx (effectiveCount 0 0) = 2 ^ 32 - 1 := by
  refine ⟨by decide, by decide, by decide⟩

/-- C6 counterexample: after reading the line "abcde\n" (6 bytes) into an
8-byte buffer, a final line of two zero-valued bytes at end of file (no
newline) is read; the leading-null strip walks past the current line's
terminator to the residual byte 'd' of the earlier line and the span
handed to the Matcher is "de\n" — bytes strictly beyond the current
line's content (the strip offset 3 plus span length 3 exceeds the content
length 2).  The readLen conjuncts witness that these two reads are
exactly what gzgets produces on the stream "abcde\n\0\0" with
buffer_size 8. -/
theorem hyperscan_C6_counterexample :
    readLen 8 [97, 98, 99, 100, 101, 10, 0, 0] = 6 ∧
    readLen 8 [0, 0] = 2 ∧
    scanSpan (writeBuf (writeBuf (List.replicate 8 1) [97, 98, 99, 100, 101, 10]) [0, 0]) =
      some [100, 101, 10] ∧
    ¬ (stripStart (writeBuf (writeBuf (List.replicate 8 1) [97, 98, 99, 100, 101, 10]) [0, 0]) +
        3 ≤ 2) := by decide

/-- C6 amended: whenever the content placed by the current read contains
at least one nonzero byte, the span handed to the Matcher is bounded to
that content — the strip offset plus the span length never passes the
current line's terminator, so residual bytes of an earlier line are not
scanned.  (The counterexample shows the bound fails exactly when the
current read's content is entirely zero bytes.) -/
theorem hyperscan_C6_span_bounded (buf content : List Nat) (h : ∃ x ∈ content, x ≠ 0) :
    ∃ span, scanSpan (writeBuf buf content) = some span ∧
      stripStart (writeBuf buf content) + span.length ≤ content.length := by
  induction content generalizing buf with
  | nil => simp at h
  | cons b rest ih =>
    by_cases hb : b = 0
    · subst hb
      have hrest : ∃ x ∈ rest, x ≠ 0 := by
        obtain ⟨x, hx, hxnz⟩ := h
        rcases List.mem_cons.1 hx with rfl | hx
        · exact absurd rfl hxnz
        · exact ⟨x, hx, hxnz⟩
      obtain ⟨span, h1, h2⟩ := ih (buf.drop 1) hrest
      have hmem : ∃ x ∈ writeBuf (buf.drop 1) rest, x ≠ 0 := by
        obtain ⟨x, hx, hxnz⟩ := hrest
        exact ⟨x, by simp [writeBuf, hx], hxnz⟩
      obtain ⟨hstrip, hspan⟩ := stripStart_cons_zero (writeBuf (buf.drop 1) rest) hmem
      rw [writeBuf_cons_zero]
      refine ⟨span, by rw [hspan, h1], ?_⟩
      rw [hstrip, List.length_cons]
      omega
    · obtain ⟨h1, h2⟩ := scanSpan_head_nonzero buf (b :: rest) b rfl hb
      refine ⟨_, h1, ?_⟩
      rw [h2, Nat.zero_add]
      exact takeWhile_length_le _ (b :: rest)

/-- C9: a read whose content is one or more zero-valued bytes followed by
text (first text byte nonzero) produces, for any line number and any
residual buffer contents on either side, exactly the records the content
without the leading zero bytes produces at that same line number: same
scanned span, same ids, same line_number.  The strip does not touch
state->line_number, and the loop's increment after the line is
unconditional, so subsequent numbering is unaffected as well. -/
theorem hyperscan_C9_leading_nulls (m : Matcher) (buf1 buf2 text : List Nat)
    (ln k : Nat) (_hk : 1 ≤ k) (c : Nat) (hc : text.head? = some c) (hcnz : c ≠ 0) :
    lineOut m buf1 (List.replicate k 0 ++ text) ln = lineOut m buf2 text ln := by
  obtain ⟨h1, _⟩ := scanSpan_replicate_zero text c hc hcnz k buf1
  obtain ⟨h2, _⟩ := scanSpan_head_nonzero buf2 text c hc hcnz
  rw [lineOut, lineOut, h1, h2]

/-- Witness for C1 at a concrete run: patterns 0 on "a\n" and 1, 2 on
"b\n", buffer_count 2, so one full batch is delivered from inside the
callback and one partial batch by the flush. -/
theorem hyperscan_C1_delivery_exact_witness :
    (Outcome.mk [[⟨0, 0, [97, 10]⟩, ⟨1, 1, [98, 10]⟩], [⟨2, 1, [98, 10]⟩]] 0 2).deliveries.flatten =
      [⟨0, 0, [97, 10]⟩, ⟨1, 1, [98, 10]⟩, ⟨2, 1, [98, 10]⟩] ∧
    List.Chain' (· ≤ ·)
      (([⟨0, 0, [97, 10]⟩, ⟨1, 1, [98, 10]⟩, ⟨2, 1, [98, 10]⟩] : List Rec).map Rec.line_number) :=
  hyperscan_C1_delivery_exact
    (fun span => (if span = [97, 10] then [0] else if span = [98, 10] then [1, 2] else [], true))
    [97, 10, 98, 10] [1, 1, 1, 1] 4 2 0
    (Outcome.mk [[⟨0, 0, [97, 10]⟩, ⟨1, 1, [98, 10]⟩], [⟨2, 1, [98, 10]⟩]] 0 2)
    [⟨0, 0, [97, 10]⟩, ⟨1, 1, [98, 10]⟩, ⟨2, 1, [98, 10]⟩] 0
    (by decide) (by decide) (by decide)

/-- Witness for C2 at the same concrete run. -/
theorem hyperscan_C2_batch_bounds_witness :
    (∀ b ∈ (Outcome.mk [[⟨0, 0, [97, 10]⟩, ⟨1, 1, [98, 10]⟩], [⟨2, 1, [98, 10]⟩]] 0 2).deliveries,
      1 ≤ b.length ∧ b.length ≤ 2) ∧
    (∀ b ∈ (Outcome.mk [[⟨0, 0, [97, 10]⟩, ⟨1, 1, [98, 10]⟩], [⟨2, 1, [98, 10]⟩]]
        0 2).deliveries.dropLast, b.length = effectiveCount 2 0) :=
  hyperscan_C2_batch_bounds
    (fun span => (if span = [97, 10] then [0] else if span = [98, 10] then [1, 2] else [], true))
    [97, 10, 98, 10] [1, 1, 1, 1] 4 2 0
    (Outcome.mk [[⟨0, 0, [97, 10]⟩, ⟨1, 1, [98, 10]⟩], [⟨2, 1, [98, 10]⟩]] 0 2)
    (by decide) (by decide)

/-- Witness for C6-amended at a concrete read: content "\0a\n" in a
residual buffer of 5s strips one zero byte and scans "a\n", staying
within the content. -/
theorem hyperscan_C6_span_bounded_witness :
    ∃ span, scanSpan (writeBuf [5, 5, 5, 5, 5] [0, 97, 10]) = some span ∧
      stripStart (writeBuf [5, 5, 5, 5, 5] [0, 97, 10]) + span.length ≤
        ([0, 97, 10] : List Nat).length :=
  hyperscan_C6_span_bounded [5, 5, 5, 5, 5] [0, 97, 10] (by decide)

/-- Witness for C7 at a concrete run with quota 2: line 0 yields one
match, line 1 yields two (crossing the quota), and line 2 is never
scanned; the loop exits at line 1 with three records delivered. -/
theorem hyperscan_C7_quota_stop_witness :
    ((Outcome.mk [[⟨0, 0, [97, 10]⟩, ⟨7, 1, [98, 10]⟩], [⟨8, 1, [98, 10]⟩]] 0 1).deliveries.flatten.filter
        (fun r => decide (r.line_number <
          (Outcome.mk [[⟨0, 0, [97, 10]⟩, ⟨7, 1, [98, 10]⟩], [⟨8, 1, [98, 10]⟩]] 0 1).lastLine))).length < 2 ∧
    (Outcome.mk [[⟨0, 0, [97, 10]⟩, ⟨7, 1, [98, 10]⟩], [⟨8, 1, [98, 10]⟩]] 0 1).deliveries.flatten.length ≤ 2 +
      ((Outcome.mk [[⟨0, 0, [97, 10]⟩, ⟨7, 1, [98, 10]⟩], [⟨8, 1, [98, 10]⟩]] 0 1).deliveries.flatten.filter
        (fun r => decide (r.line_number =
          (Outcome.mk [[⟨0, 0, [97, 10]⟩, ⟨7, 1, [98, 10]⟩], [⟨8, 1, [98, 10]⟩]] 0 1).lastLine))).length ∧
    (∀ r ∈ (Outcome.mk [[⟨0, 0, [97, 10]⟩, ⟨7, 1, [98, 10]⟩], [⟨8, 1, [98, 10]⟩]] 0 1).deliveries.flatten,
      r.line_number ≤ (Outcome.mk [[⟨0, 0, [97, 10]⟩, ⟨7, 1, [98, 10]⟩], [⟨8, 1, [98, 10]⟩]] 0 1).lastLine) :=
  hyperscan_C7_quota_stop
    (fun span => (if span = [97, 10] then [0] else if span = [98, 10] then [7, 8]
      else if span = [99, 10] then [9] else [], true))
    [97, 10, 98, 10, 99, 10] [1, 1, 1, 1] 4 5 2
    (Outcome.mk [[⟨0, 0, [97, 10]⟩, ⟨7, 1, [98, 10]⟩], [⟨8, 1, [98, 10]⟩]] 0 1)
    (by decide) (by decide) (by decide) (by decide)

/-- Witness for C8 at a concrete run: the matcher's scan call fails on
line 1; the two records accumulated so far are still flushed and the
session returns HYPERSCANNER_SCAN. -/
theorem hyperscan_C8_scan_failure_witness :
    (Outcome.mk [[⟨0, 0, [97, 10]⟩, ⟨3, 1, [98, 10]⟩]] HYPERSCANNER_SCAN 1).ret =
      HYPERSCANNER_SCAN ∧
    (Outcome.mk [[⟨0, 0, [97, 10]⟩, ⟨3, 1, [98, 10]⟩]] HYPERSCANNER_SCAN 1).ret ≠ 0 ∧
    (Outcome.mk [[⟨0, 0, [97, 10]⟩, ⟨3, 1, [98, 10]⟩]] HYPERSCANNER_SCAN 1).deliveries.flatten =
      [⟨0, 0, [97, 10]⟩, ⟨3, 1, [98, 10]⟩] ∧
    (∀ r ∈ ([⟨0, 0, [97, 10]⟩, ⟨3, 1, [98, 10]⟩] : List Rec), r.line_number ≤
      (Outcome.mk [[⟨0, 0, [97, 10]⟩, ⟨3, 1, [98, 10]⟩]] HYPERSCANNER_SCAN 1).lastLine) :=
  hyperscan_C8_scan_failure
    (fun span => (if span = [97, 10] then [0] else if span = [98, 10] then [3] else [],
      decide (span ≠ [98, 10])))
    [97, 10, 98, 10, 99, 10] [1, 1, 1, 1] 4 3 0
    (Outcome.mk [[⟨0, 0, [97, 10]⟩, ⟨3, 1, [98, 10]⟩]] HYPERSCANNER_SCAN 1)
    [⟨0, 0, [97, 10]⟩, ⟨3, 1, [98, 10]⟩]
    (by decide) (by decide) (by decide)

/-- Witness for C9 at a concrete read: two leading zero bytes before
"ab\n" yield the same records at line 5 as "ab\n" alone. -/
theorem hyperscan_C9_leading_nulls_witness :
    lineOut (fun span => ([span.length], true)) [1, 1, 1, 1, 1, 1, 1, 1]
      (List.replicate 2 0 ++ [97, 98, 10]) 5 =
    lineOut (fun span => ([span.length], true)) [2, 2, 2, 2, 2, 2] [97, 98, 10] 5 :=
  hyperscan_C9_leading_nulls (fun span => ([span.length], true))
    [1, 1, 1, 1, 1, 1, 1, 1] [2, 2, 2, 2, 2, 2] [97, 98, 10] 5 2
    (by decide) 97 (by decide) (by decide)

/-- Witness for C10 at the C7 run: quota 2 with configured buffer_count 5
lowers the ring capacity to 2; every batch has at most 2 records and the
non-final batch is exactly full at 2. -/
theorem hyperscan_C10_quota_caps_ring_witness :
    effectiveCount 5 2 = 2 ∧
    (∀ b ∈ (Outcome.mk [[⟨0, 0, [97, 10]⟩, ⟨7, 1, [98, 10]⟩], [⟨8, 1, [98, 10]⟩]] 0 1).deliveries,
      1 ≤ b.length ∧ b.length ≤ 2) ∧
    (∀ b ∈ (Outcome.mk [[⟨0, 0, [97, 10]⟩, ⟨7, 1, [98, 10]⟩], [⟨8, 1, [98, 10]⟩]]
        0 1).deliveries.dropLast, b.length = 2) :=
  hyperscan_C10_quota_caps_ring
    (fun span => (if span = [97, 10] then [0] else if span = [98, 10] then [7, 8]
      else if span = [99, 10] then [9] else [], true))
    [97, 10, 98, 10, 99, 10] [1, 1, 1, 1] 4 5 2
    (Outcome.mk [[⟨0, 0, [97, 10]⟩, ⟨7, 1, [98, 10]⟩], [⟨8, 1, [98, 10]⟩]] 0 1)
    (by decide) (by decide) (by decide)

end Hyperscanner
